import Mathlib

/-!
Shallow embedding of `src/youtube-process.py` (TubeArchivist accessory
script).  Pure string manipulation is modelled at the character-list
level (Python `str.split`, `in`, slicing, `str.replace` with
single-character arguments); machine-level details that the script never
exercises (Unicode alphanumeric classes beyond ASCII, float timestamps)
are modelled by their ASCII / integer restrictions, noted at each
definition.  Stateful pieces (`VideoProcessor` fields, the SQLite cache)
become explicit state records threaded through the functions.
-/

/-- The apostrophe character, written numerically. -/
def apos : Char := Char.ofNat 39

/-- The double-quote character, written numerically. -/
def quot_char : Char := Char.ofNat 34

/-- The allow-list from `allowed_chars = ".-_', ()[]"` shared by
`_format_channel_name` and `_format_title` (lines 169 and 187). -/
def allowedChars : List Char := ['.', '-', '_', apos, ',', ' ', '(', ')', '[', ']']

/-- One character of the sanitizer comprehension
`c if c.isalnum() or c in allowed_chars else "_"`.  Python `str.isalnum`
is modelled by its ASCII restriction `Char.isAlphanum`; every input the
specification mentions is ASCII. -/
def sanitize_char (c : Char) : Char :=
  if c.isAlphanum || allowedChars.contains c then c else '_'

/-- `VideoProcessor._format_channel_name` (lines 166-170). -/
def format_channel_name (name : String) : String :=
  String.mk (name.data.map sanitize_char)

/-- Python `str.split(sep)` for a single-character separator, on
character lists. -/
def splitOnChar (sep : Char) : List Char → List (List Char)
  | [] => [[]]
  | c :: rest =>
    let r := splitOnChar sep rest
    if c = sep then [] :: r
    else
      match r with
      | [] => [[c]]
      | h :: t => (c :: h) :: t

/-- The restructuring step of `_format_title` (lines 175-185): split on
`_`; with at least three parts, rebuild `f"{title} - {channel} {episode}"`
where the channel has `*` replaced by an apostrophe and the episode has
`*` removed and is parenthesised when it starts with `S`. -/
def restructure_title (name : List Char) : List Char :=
  match splitOnChar '_' name with
  | title :: channel :: episode :: _ =>
    let channel := channel.map (fun c => if c = '*' then apos else c)
    let episode := episode.filter (fun c => c ≠ '*')
    let episode := if episode.head? = some 'S' then '(' :: (episode ++ [')']) else episode
    title ++ (' ' :: '-' :: ' ' :: channel) ++ (' ' :: episode)
  | _ => name

/-- `VideoProcessor._format_title` (lines 172-188): restructure, then
sanitize each character with the same allow-list as
`_format_channel_name`, then slice to 255 characters. -/
def format_title (name : String) : String :=
  String.mk (((restructure_title name.data).map sanitize_char).take 255)

/-- Finds the last `'.'` in a character list: returns
`some (before, dot :: after)` (Python `name[:i]`, `name[i:]` for
`i = name.rfind('.')`), or `none` when there is no dot. -/
def splitExtAux : List Char → Option (List Char × List Char)
  | [] => none
  | c :: rest =>
    match splitExtAux rest with
    | some (s, e) => some (c :: s, e)
    | none => if c = '.' then some ([], '.' :: rest) else none

/-- `pathlib.PurePath.stem` and `.suffix` of a file name: the split at the
last dot counts only when the dot is neither the first nor the last
character (`0 < i < len(name) - 1`); otherwise the stem is the whole name
and the suffix empty. -/
def py_stem_suffix (name : List Char) : List Char × List Char :=
  match splitExtAux name with
  | some (s, e) => if s ≠ [] ∧ 2 ≤ e.length then (s, e) else (name, [])
  | none => (name, [])

/-- Python `str.split('.')` of a stem. -/
def splitDots (l : List Char) : List (List Char) := splitOnChar '.' l

/-- The identifier extraction `f.stem.split('.')[0]` used at lines 210,
316 and 319. -/
def extract_id (fname : String) : String :=
  String.mk ((splitDots (py_stem_suffix fname.data).1).headD [])

/-- Python `pat in s` (substring test) via an explicit prefix scan. -/
def hasPrefixChars : List Char → List Char → Bool
  | [], _ => true
  | _ :: _, [] => false
  | a :: as, b :: bs => a == b && hasPrefixChars as bs

/-- Python `pat in s` (substring containment) on character lists. -/
def containsSub (pat : List Char) : List Char → Bool
  | [] => pat.isEmpty
  | c :: rest => hasPrefixChars pat (c :: rest) || containsSub pat rest

/-- The marker `'.lang.'` tested at line 216. -/
def dot_lang_dot : List Char := ['.', 'l', 'a', 'n', 'g', '.']

/-- The file-naming logic of `VideoProcessor._process_file`
(lines 215-218): start from the destination base filename; when the source
name contains `.lang.`, append a dot and `file_path.stem.split('.')[-1]`
(the language code); finally append `file_path.suffix`. -/
def organized_name (base : String) (fname : String) : String :=
  let st := py_stem_suffix fname.data
  let nf :=
    if containsSub dot_lang_dot fname.data then
      base.data ++ '.' :: (splitDots st.1).getLastD []
    else base.data
  String.mk (nf ++ st.2)

/-- A `snippet` object of the remote JSON response; each field is optional
because the code reads them with `snippet.get(..., default)`. -/
structure Snippet where
  title? : Option String
  description? : Option String
  channelTitle? : Option String
  publishedAt? : Option String
deriving DecidableEq

/-- An element of the `items` array of the remote JSON response. -/
structure ApiItem where
  id : String
  snippet : Snippet
deriving DecidableEq

/-- The parsed JSON body returned by `requests.get(...).json()`; `items?`
is `none` when the body has no `"items"` key (line 144 guards on it). -/
structure ApiResponse where
  items? : Option (List ApiItem)
deriving DecidableEq

/-- The `VideoMetadata` dataclass (lines 25-30). -/
structure VideoMetadata where
  title : String
  description : String
  uploader : String
  upload_date : String
deriving DecidableEq

/-- Association-list lookup, modelling both `dict` indexing and the
`SELECT ... WHERE video_id = ?` point lookup of the cache table. -/
def alist_lookup {α : Type} : List (String × α) → String → Option α
  | [], _ => none
  | (k0, v) :: rest, k => if k0 = k then some v else alist_lookup rest k

/-- Association-list upsert, modelling both `dict.__setitem__` and the
`INSERT OR REPLACE` of `_cache_response`: an existing key keeps its
position and gets the new value, a new key is appended. -/
def alist_upsert {α : Type} : List (String × α) → String → α → List (String × α)
  | [], k, v => [(k, v)]
  | (k0, v0) :: rest, k, v =>
    if k0 = k then (k, v) :: rest else (k0, v0) :: alist_upsert rest k v

/-- The mutable state `_process_batch` touches: the run-scoped quota
counter `self.api_quota_remaining` (line 49) and the persistent cache
table written by `_cache_response` (line 112-119), modelled as an
association list `video_id ↦ (stored item, insertion timestamp)`; the
`DEFAULT CURRENT_TIMESTAMP` column is the `now` argument of the call that
wrote the row. -/
structure ProcState where
  api_quota_remaining : Int
  cache : List (String × (ApiItem × Int))
deriving DecidableEq

/-- `VideoProcessor._get_cached_response` (lines 94-110): point lookup,
then serve the stored payload iff `datetime.now() - cache_time <=
self.cache_duration`; a missing row and an expired row both yield `None`.
Timestamps and the TTL are in integer seconds. -/
def get_cached_response (cache : List (String × (ApiItem × Int)))
    (cache_duration now : Int) (video_id : String) : Option ApiItem :=
  match alist_lookup cache video_id with
  | some (item, ts) => if now - ts ≤ cache_duration then some item else none
  | none => none

/-- The body of the `for item in response["items"]` loop of
`_process_batch` (lines 145-155): build a `VideoMetadata` with the
`snippet.get` defaults, store it in `results[video_id]`, and write the
item through `_cache_response`. -/
def batch_step (now : Int) (acc : ProcState × List (String × VideoMetadata))
    (item : ApiItem) : ProcState × List (String × VideoMetadata) :=
  let md : VideoMetadata :=
    { title := item.snippet.title?.getD "Unknown Title"
      description := item.snippet.description?.getD "No Description"
      uploader := item.snippet.channelTitle?.getD "Unknown Uploader"
      upload_date := item.snippet.publishedAt?.getD "Unknown Date" }
  ({ acc.1 with cache := alist_upsert acc.1.cache item.id (item, now) },
   alist_upsert acc.2 item.id md)

/-- `VideoProcessor._process_batch` (lines 121-164).  The outcome of the
single `requests.get(...).json()` call is the `resp` argument:
`Except.error` models a raised `requests.RequestException` (network
error, timeout, malformed JSON body), `Except.ok` a parsed response.
Returns the new state, the `results` mapping, and the number of remote
requests issued (`0` for an empty id list, which returns `{}` before any
request; otherwise `1` — the code contains no retry loop). -/
def process_batch (st : ProcState) (resp : Except Unit ApiResponse)
    (now : Int) (video_ids : List String) :
    ProcState × (List (String × VideoMetadata) × Nat) :=
  if video_ids.isEmpty then (st, ([], 0))
  else
    match resp with
    | Except.error _ => (st, ([], 1))
    | Except.ok r =>
      let st1 : ProcState := { st with api_quota_remaining := st.api_quota_remaining - 1 }
      let fin := (r.items?.getD []).foldl (batch_step now) (st1, [])
      (fin.1, (fin.2, 1))

/-- The identifier collection of `process_videos` (lines 315-320):
`video_ids = list(set(stem ids of video files))` (modelled by
`List.dedup`; only the multiset of ids matters to the claims, not the
arbitrary set order), then auxiliary-file ids are appended without
deduplication among themselves, filtered only against `video_ids`. -/
def collect_ids (video_names auxiliary_names : List String) : List String :=
  let video_ids := (video_names.map extract_id).dedup
  let auxiliary_ids := auxiliary_names.map extract_id
  video_ids ++ auxiliary_ids.filter (fun aid => decide (aid ∉ video_ids))

/-- The batching loop header `for i in range(0, len(all_ids),
self.BATCH_SIZE)` with `BATCH_SIZE = 50` (lines 325-326). -/
def batches (all_ids : List String) : List (List String) :=
  (List.range ((all_ids.length + 49) / 50)).map
    (fun i => ((all_ids.drop (i * 50)).take 50))

/-- The resolution phase of `process_videos` (lines 324-328): feed each
batch to `_process_batch` and fold the results into
`self.metadata_cache` via `dict.update`.  `oracle i` is the outcome of
the remote request for batch `i`.  Returns the final state, the
metadata cache, and the total number of remote requests issued. -/
def resolve_all (st : ProcState) (oracle : Nat → Except Unit ApiResponse)
    (now : Int) (all_ids : List String) :
    ProcState × (List (String × VideoMetadata) × Nat) :=
  (batches all_ids).enum.foldl
    (fun acc p =>
      let r := process_batch acc.1 (oracle p.1) now p.2
      (r.1,
       (r.2.1.foldl (fun mc q => alist_upsert mc q.1 q.2) acc.2.1,
        acc.2.2 + r.2.2)))
    (st, ([], 0))

/-- A regular file seen by the `channels_dir.rglob("*")` walk of
`cleanup_old_files`: its immediate parent directory name
(`file_path.parent.name`), its stem (`file_path.stem`) and its
modification time `st_mtime` in integer seconds. -/
structure FileEntry where
  parent : String
  stem : String
  mtime : Int
deriving DecidableEq

/-- `defaultdict(list)` append: `recs[k].append(v)`; an existing key keeps
its position, a new key is appended at the end. -/
def record_add : List (String × List String) → String → String → List (String × List String)
  | [], k, v => [(k, [v])]
  | (k0, vs) :: rest, k, v =>
    if k0 = k then (k0, vs ++ [v]) :: rest else (k0, vs) :: record_add rest k v

/-- Lookup in a deletion record, with the `defaultdict` empty default. -/
def rec_get (recs : List (String × List String)) (k : String) : List String :=
  (alist_lookup recs k).getD []

/-- Python `int(s)` restricted to an optional sign and decimal digits
(the script only ever passes such strings); `none` models the
`ValueError` branch of line 294. -/
def parse_digits : Nat → List Char → Option Nat
  | acc, [] => some acc
  | acc, c :: rest =>
    if c.isDigit then parse_digits (acc * 10 + (c.toNat - 48)) rest else none

/-- See `parse_digits`. -/
def str_to_int (s : String) : Option Int :=
  match s.data with
  | [] => none
  | c :: rest =>
    if c = '-' then
      match rest with
      | [] => none
      | _ => (parse_digits 0 rest).map (fun n => -(n : Int))
    else (parse_digits 0 (c :: rest)).map (fun n => (n : Int))

/-- `VideoProcessor.cleanup_old_files` (lines 242-295) restricted to its
observable effect on regular files: if the single global key
`DELETE_AFTER` is absent, or fails to parse as an integer, nothing is
deleted; otherwise every file whose `st_mtime` is strictly below
`time.time() - days * 86400` is deleted, and its stem is appended to
`self.deleted_files[parent directory name]`.  Returns (deleted files,
deletion records). -/
def cleanup_old_files (config : List (String × String)) (now : Int)
    (files : List FileEntry) : List FileEntry × List (String × List String) :=
  match alist_lookup config "DELETE_AFTER" with
  | none => ([], [])
  | some s =>
    match str_to_int s with
    | none => ([], [])
    | some days =>
      let cutoff := now - days * 86400
      let deleted := files.filter (fun f => decide (f.mtime < cutoff))
      (deleted, deleted.foldl (fun recs f => record_add recs f.parent f.stem) [])

/-- Modelled from the spec: the retention-policy resolution of §4.6 / §6,
which the code does not implement (there is no per-destination lookup
anywhere in `cleanup_old_files`; the configuration surface of the spec
names "global and optional per-destination retention windows").  The
window of a destination is its per-destination setting when configured,
otherwise the global default; `none` (unset) disables deletion. -/
def spec_retention_window (perDest : String → Option Int)
    (globalDefault : Option Int) (dest : String) : Option Int :=
  match perDest dest with
  | some w => some w
  | none => globalDefault

/-- Modelled from the spec: whether §4.6 mandates deleting a file — its
destination's resolved window is set and the modification time predates
`now − window`. -/
def spec_should_delete (perDest : String → Option Int)
    (globalDefault : Option Int) (now : Int) (f : FileEntry) : Bool :=
  match spec_retention_window perDest globalDefault f.parent with
  | none => false
  | some w => decide (f.mtime < now - w * 86400)

/-! ## Helper lemmas -/

/-- Two strings with equal character data are equal. -/
theorem string_eq_of_data {a b : String} (h : a.data = b.data) : a = b := by
  cases a
  cases b
  cases h
  rfl

/-- Character data of a string concatenation. -/
theorem str_data_append (a b : String) : (a ++ b).data = a.data ++ b.data := by
  cases a
  cases b
  rfl

/-- Rebuilding a string from its character data is the identity. -/
theorem mk_data_eq (s : String) : String.mk s.data = s := rfl

/-- Each sanitized character is alphanumeric or allow-listed. -/
theorem sanitize_char_mem (c : Char) :
    (sanitize_char c).isAlphanum = true ∨ sanitize_char c ∈ allowedChars := by
  unfold sanitize_char
  by_cases h : (c.isAlphanum || allowedChars.contains c) = true
  · rw [if_pos h]
    rcases Bool.or_eq_true_iff.mp h with h1 | h1
    · exact Or.inl h1
    · exact Or.inr (by simpa using h1)
  · rw [if_neg h]
    exact Or.inr (by decide)

/-- The fold over response items never touches the quota counter. -/
theorem batch_fold_quota (now : Int) (items : List ApiItem) :
    ∀ acc : ProcState × List (String × VideoMetadata),
      ((items.foldl (batch_step now) acc).1).api_quota_remaining =
        acc.1.api_quota_remaining := by
  induction items with
  | nil => intro acc; rfl
  | cons it rest ih =>
    intro acc
    rw [List.foldl_cons, ih]
    rfl

/-- A nonempty list is not `isEmpty`. -/
theorem isEmpty_false_of_ne_nil {α : Type} {l : List α} (h : l ≠ []) :
    l.isEmpty = false := by
  cases l with
  | nil => exact absurd rfl h
  | cons a t => rfl

/-! ## Claim theorems -/

/-- Claim C2 evaluation: the quota counter is never consulted before a
batch call.  With the counter already at zero and a pending batch, the
model of `_process_batch` still issues the remote request (attempt count
1, not 0) and decrements the counter to -1; in the source
`api_quota_remaining` is written (lines 49 and 141) but never read, so no
gate exists and nothing resolves to absent on exhaustion. -/
theorem c2_quota_gate_missing :
    (process_batch ⟨0, []⟩ (Except.ok ⟨some [⟨"vid1", ⟨some "T", some "D", some "U", some "P"⟩⟩]⟩) 0 ["vid1"]).2.2 = 1 ∧
    (process_batch ⟨0, []⟩ (Except.ok ⟨some [⟨"vid1", ⟨some "T", some "D", some "U", some "P"⟩⟩]⟩) 0 ["vid1"]).1.api_quota_remaining = -1 := by
  exact ⟨rfl, by decide⟩

/-- Claim C4 counterexample: with a persistently failing remote endpoint
the resolver issues exactly one request for the batch — there is no
retry, so the claimed "up to 3 retries with exponential backoff" (which
would make at least two attempts before giving up) is false. -/
theorem c4_counterexample :
    (resolve_all ⟨1000, []⟩ (fun _ => Except.error ()) 0 ["vid1"]).2.2 = 1 ∧
    ¬ 2 ≤ (resolve_all ⟨1000, []⟩ (fun _ => Except.error ()) 0 ["vid1"]).2.2 := by
  exact ⟨rfl, by decide⟩

/-- Claim C4 amended: a transient remote failure is handled by a single
attempt — `_process_batch` catches the `RequestException`, returns an
empty mapping, leaves the state (quota and cache) unchanged, and issues
exactly one request; the failure degrades only that batch and is not
propagated to the run. -/
theorem c4_single_attempt_degrades_batch (st : ProcState) (e : Unit)
    (now : Int) (ids : List String) (h : ids ≠ []) :
    process_batch st (Except.error e) now ids = (st, ([], 1)) := by
  unfold process_batch
  rw [isEmpty_false_of_ne_nil h]
  rfl

/-- Claim C4 witness: the amended statement at a concrete batch. -/
theorem c4_single_attempt_witness :
    process_batch ⟨1000, []⟩ (Except.error ()) 0 ["vid1"] = (⟨1000, []⟩, ([], 1)) :=
  c4_single_attempt_degrades_batch ⟨1000, []⟩ () 0 ["vid1"] (by decide)

/-- Claim C5 counterexample: the double quote is not in the source
allow-list `".-_', ()[]"` — `_format_channel_name` replaces it with an
underscore instead of keeping it — and `_format_channel_name` has no
255-character truncation: a 256-character input yields 256 characters. -/
theorem c5_counterexample :
    format_channel_name (String.mk [quot_char]) = "_" ∧
    format_channel_name (String.mk [quot_char]) ≠ String.mk [quot_char] ∧
    255 < (format_channel_name (String.mk (List.replicate 256 'a'))).data.length := by
  refine ⟨rfl, by decide, ?_⟩
  show 255 < ((List.replicate 256 'a').map sanitize_char).length
  rw [List.length_map, List.length_replicate]
  decide

/-- Claim C5 amended: both sanitizers emit only characters that are
(ASCII) alphanumeric or in the ten-character allow-list
`{'-','_','.','(',')','[',']',',',' ',(apostrophe)}` (the double quote is
not allow-listed and becomes an underscore), and the title sanitizer—but
not the channel-name sanitizer—truncates to at most 255 characters; both
are pure functions of their input. -/
theorem c5_sanitizers_amended (s : String) :
    (∀ c ∈ (format_channel_name s).data, c.isAlphanum = true ∨ c ∈ allowedChars) ∧
    (∀ c ∈ (format_title s).data, c.isAlphanum = true ∨ c ∈ allowedChars) ∧
    (format_title s).data.length ≤ 255 := by
  refine ⟨?_, ?_, ?_⟩
  · intro c hc
    obtain ⟨a, -, rfl⟩ :=
      List.mem_map.mp (show c ∈ s.data.map sanitize_char from hc)
    exact sanitize_char_mem a
  · intro c hc
    have hc2 : c ∈ (restructure_title s.data).map sanitize_char :=
      List.mem_of_mem_take
        (show c ∈ ((restructure_title s.data).map sanitize_char).take 255 from hc)
    obtain ⟨a, -, rfl⟩ := List.mem_map.mp hc2
    exact sanitize_char_mem a
  · show (((restructure_title s.data).map sanitize_char).take 255).length ≤ 255
    rw [List.length_take]
    exact min_le_left _ _

/-- Claim C6 counterexample: `_format_title` splits on underscores, not
hyphens; the hyphen-delimited metadata title of the claim is left exactly
as it is (hyphens are allow-listed), so the base filename is not
restructured into the claimed display form. -/
theorem c6_counterexample :
    format_title "Ep Title-Chan-S1" = "Ep Title-Chan-S1" ∧
    format_title "Ep Title-Chan-S1" ≠ "Ep Title - Chan (S1)" := by
  exact ⟨rfl, by decide⟩

/-- Claim C6 amended: the restructuring applies to underscore-delimited
titles: a metadata title "Ep Title_Chan_S1" yields the display base
filename "Ep Title - Chan (S1)" (episode token starting with `S` is
parenthesised), while the hyphen-delimited "Ep Title-Chan-S1" passes
through unchanged. -/
theorem c6_underscore_delimited_restructuring :
    format_title "Ep Title_Chan_S1" = "Ep Title - Chan (S1)" ∧
    format_title "Ep Title-Chan-S1" = "Ep Title-Chan-S1" := by
  exact ⟨rfl, rfl⟩

/-- Claim C7: one successful batched remote call decrements the quota
counter by exactly one, whatever the batch size (1 ≤ N ≤ 50): the
decrement at line 141 happens once per call, and the per-item loop only
writes cache rows and results. -/
theorem c7_one_quota_unit_per_batch (st : ProcState) (r : ApiResponse)
    (now : Int) (ids : List String) (h1 : ids ≠ []) (h2 : ids.length ≤ 50) :
    (process_batch st (Except.ok r) now ids).1.api_quota_remaining =
      st.api_quota_remaining - 1 := by
  unfold process_batch
  rw [isEmpty_false_of_ne_nil h1]
  show ((_ : List ApiItem).foldl (batch_step now) _).1.api_quota_remaining = _
  rw [batch_fold_quota]

/-- Claim C7 witness: a concrete one-element batch consumes one unit. -/
theorem c7_one_quota_unit_witness :
    (process_batch ⟨1000, []⟩
      (Except.ok ⟨some [⟨"vid1", ⟨some "T", some "D", some "U", some "P"⟩⟩]⟩)
      0 ["vid1"]).1.api_quota_remaining = 1000 - 1 :=
  c7_one_quota_unit_per_batch ⟨1000, []⟩
    ⟨some [⟨"vid1", ⟨some "T", some "D", some "U", some "P"⟩⟩]⟩
    0 ["vid1"] (by decide) (by decide)

/-- Claim C10: when the remote request raises a request-level error,
`_process_batch` returns an empty mapping and leaves all observable
state unchanged — the quota counter (decremented only at line 141, after
a response came back) keeps its value and no cache row is written. -/
theorem c10_request_error_is_side_effect_free (st : ProcState) (e : Unit)
    (now : Int) (ids : List String) :
    (process_batch st (Except.error e) now ids).1 = st ∧
    (process_batch st (Except.error e) now ids).2.1 = [] := by
  unfold process_batch
  by_cases h : ids.isEmpty
  · rw [if_pos h]
    exact ⟨rfl, rfl⟩
  · rw [if_neg h]
    exact ⟨rfl, rfl⟩

/-- Claim C1 evaluation: the cache read path is dead code.  The model of
`_get_cached_response` does obey the claimed TTL rule (a row of age 0 and
a row of age exactly TTL are served, a row one second past TTL is not),
but the resolution pipeline of `process_videos` never calls it: with a
fresh cache row for "vid1" (fetched at time 100, looked up at time 100,
TTL 30 days), "vid1" is still placed in a remote batch and one remote
request is issued for it — there is no partition into hits and misses. -/
theorem c1_cache_hit_still_fetched_remotely :
    get_cached_response [("vid1", (⟨"vid1", ⟨some "T", some "D", some "U", some "P"⟩⟩, 100))]
      (30 * 86400) 100 "vid1" = some ⟨"vid1", ⟨some "T", some "D", some "U", some "P"⟩⟩ ∧
    get_cached_response [("vid1", (⟨"vid1", ⟨some "T", some "D", some "U", some "P"⟩⟩, 100))]
      (30 * 86400) (100 + 30 * 86400) "vid1" = some ⟨"vid1", ⟨some "T", some "D", some "U", some "P"⟩⟩ ∧
    get_cached_response [("vid1", (⟨"vid1", ⟨some "T", some "D", some "U", some "P"⟩⟩, 100))]
      (30 * 86400) (101 + 30 * 86400) "vid1" = none ∧
    batches (collect_ids ["vid1.mp4"] []) = [["vid1"]] ∧
    (resolve_all ⟨1000, [("vid1", (⟨"vid1", ⟨some "T", some "D", some "U", some "P"⟩⟩, 100))]⟩
      (fun _ => Except.ok ⟨some [⟨"vid1", ⟨some "T", some "D", some "U", some "P"⟩⟩]⟩)
      100 (collect_ids ["vid1.mp4"] [])).2.2 = 1 := by
  refine ⟨by decide, by decide, by decide, by decide, by decide⟩

/-- Claim C3 counterexample: two auxiliary sidecar files that share the
identifier "vid1", with no primary video file for it, put "vid1" twice
into the id list that is batched — line 319 collects auxiliary ids
"without deduplication" (its own comment) and only filters them against
the video-file ids. -/
theorem c3_counterexample :
    List.count "vid1" (collect_ids [] ["vid1.json", "vid1.lang.en.vtt"]) = 2 ∧
    ¬ List.count "vid1" (collect_ids [] ["vid1.json", "vid1.lang.en.vtt"]) ≤ 1 := by
  exact ⟨by decide, by decide⟩

/-- Claim C3 amended: ids from primary video files are deduplicated, and
an auxiliary-file id is dropped when a video file already contributes it;
but several auxiliary files sharing an id that no video file carries
contribute one occurrence each.  Exactly: an id occurs once in the
batched list if some video file carries it, and otherwise as many times
as auxiliary files carry it. -/
theorem c3_dedup_only_for_video_ids (video_names auxiliary_names : List String)
    (a : String) :
    List.count a (collect_ids video_names auxiliary_names) =
      if a ∈ video_names.map extract_id then 1
      else List.count a (auxiliary_names.map extract_id) := by
  unfold collect_ids
  rw [List.count_append]
  by_cases h : a ∈ video_names.map extract_id
  · rw [if_pos h, List.count_dedup, if_pos h]
    have hnot : a ∉ (auxiliary_names.map extract_id).filter
        (fun aid => decide (aid ∉ (video_names.map extract_id).dedup)) := by
      intro hmem
      have := (List.mem_filter.mp hmem).2
      simp only [decide_eq_true_eq] at this
      exact this (List.mem_dedup.mpr h)
    rw [List.count_eq_zero.mpr hnot]
  · rw [if_neg h, List.count_dedup, if_neg h, Nat.zero_add]
    rw [List.count_filter]
    simp only [decide_eq_true_eq]
    intro hmem
    exact h (List.mem_dedup.mp hmem)

/-- Splitting a separator-free prefix followed by the separator peels off
that prefix as the first part. -/
theorem splitOnChar_sep_append (sep : Char) (xs ys : List Char)
    (h : ∀ c ∈ xs, c ≠ sep) :
    splitOnChar sep (xs ++ sep :: ys) = xs :: splitOnChar sep ys := by
  induction xs with
  | nil => simp [splitOnChar]
  | cons x xs ih =>
    have hx : x ≠ sep := h x (by simp)
    have ih2 := ih (fun c hc => h c (by simp [hc]))
    simp only [List.cons_append, splitOnChar, List.append_eq, ih2, if_neg hx]

/-- Splitting a separator-free list yields that list as the only part. -/
theorem splitOnChar_no_sep (sep : Char) (xs : List Char)
    (h : ∀ c ∈ xs, c ≠ sep) : splitOnChar sep xs = [xs] := by
  induction xs with
  | nil => rfl
  | cons x xs ih =>
    have hx : x ≠ sep := h x (by simp)
    have ih2 := ih (fun c hc => h c (by simp [hc]))
    simp only [splitOnChar, ih2, if_neg hx]

/-- A dot-free list has no extension split. -/
theorem splitExtAux_none (l : List Char) (h : ∀ c ∈ l, c ≠ '.') :
    splitExtAux l = none := by
  induction l with
  | nil => rfl
  | cons x xs ih =>
    have hx : x ≠ '.' := h x (by simp)
    have ih2 := ih (fun c hc => h c (by simp [hc]))
    simp only [splitExtAux, ih2, if_neg hx]

/-- The last dot of an appended list lies in the right part when the
right part has one. -/
theorem splitExtAux_append (xs ys s e : List Char)
    (h : splitExtAux ys = some (s, e)) :
    splitExtAux (xs ++ ys) = some (xs ++ s, e) := by
  induction xs with
  | nil => simpa using h
  | cons x xs ih => simp only [List.cons_append, splitExtAux, List.append_eq, ih]

/-- A leading dot followed by a dot-free tail is the last dot. -/
theorem splitExtAux_dot (rest : List Char) (h : splitExtAux rest = none) :
    splitExtAux ('.' :: rest) = some ([], '.' :: rest) := by
  simp [splitExtAux, h]

/-- Every list is a prefix of itself extended. -/
theorem hasPrefixChars_append_self (p t : List Char) :
    hasPrefixChars p (p ++ t) = true := by
  induction p with
  | nil => rfl
  | cons a as ih => simp [hasPrefixChars, ih]

/-- A pattern occurring verbatim inside a list is found by the substring
scan. -/
theorem containsSub_of_append (p t xs : List Char) :
    containsSub p (xs ++ p ++ t) = true := by
  induction xs with
  | nil =>
    cases p with
    | nil =>
      cases t with
      | nil => rfl
      | cons c r => simp [containsSub, hasPrefixChars]
    | cons a as =>
      simp [containsSub, hasPrefixChars, hasPrefixChars_append_self]
  | cons x xs ih =>
    simp only [List.cons_append, containsSub, List.append_eq, ih, Bool.or_true]

/-- A name made of a dot-free stem and the extension `.mp4` does not
contain the `.lang.` marker: the marker carries two dots, the name only
one. -/
theorem containsSub_lang_mp4_false (xs : List Char) (h : ∀ c ∈ xs, c ≠ '.') :
    containsSub dot_lang_dot (xs ++ ('.' :: 'm' :: 'p' :: '4' :: [])) = false := by
  induction xs with
  | nil => decide
  | cons x xs ih =>
    have hx : x ≠ '.' := h x (by simp)
    have ih2 := ih (fun c hc => h c (by simp [hc]))
    have hbe : ('.' == x) = false := beq_eq_false_iff_ne.mpr (Ne.symm hx)
    simp only [List.cons_append, containsSub, List.append_eq, ih2, Bool.or_false]
    simp [dot_lang_dot, hasPrefixChars, hbe]

/-- Claim C8: a primary file `X.mp4` and a language sidecar
`X.lang.⟨code⟩.vtt` (dot-free nonempty `X` and code) extract the same
identifier `X`, and once organized against the same destination base
filename both outputs start with that base filename and differ only in
the preserved language segment (inserted before the extension) and the
original extension. -/
theorem c8_sidecar_shares_base_filename (X lang base : String)
    (hX1 : X.data ≠ []) (hX2 : ∀ c ∈ X.data, c ≠ '.')
    (hl1 : lang.data ≠ []) (hl2 : ∀ c ∈ lang.data, c ≠ '.') :
    organized_name base (X ++ ".mp4") = base ++ ".mp4" ∧
    organized_name base (X ++ ".lang." ++ lang ++ ".vtt") = base ++ "." ++ lang ++ ".vtt" ∧
    extract_id (X ++ ".mp4") = X ∧
    extract_id (X ++ ".lang." ++ lang ++ ".vtt") = X := by
  have hdmp4 : (X ++ ".mp4").data = X.data ++ ('.' :: 'm' :: 'p' :: '4' :: []) := by
    rw [str_data_append]
  have hsplit_mp4 : splitExtAux (X.data ++ ('.' :: 'm' :: 'p' :: '4' :: [])) =
      some (X.data, '.' :: 'm' :: 'p' :: '4' :: []) := by
    have h1 : splitExtAux ('.' :: 'm' :: 'p' :: '4' :: []) =
        some ([], '.' :: 'm' :: 'p' :: '4' :: []) := by decide
    have h2 := splitExtAux_append X.data _ _ _ h1
    simpa using h2
  have hstem_mp4 : py_stem_suffix ((X ++ ".mp4").data) =
      (X.data, '.' :: 'm' :: 'p' :: '4' :: []) := by
    rw [hdmp4]
    simp only [py_stem_suffix, hsplit_mp4]
    have hcond : X.data ≠ [] ∧ 2 ≤ ('.' :: 'm' :: 'p' :: '4' :: ([] : List Char)).length :=
      ⟨hX1, by decide⟩
    rw [if_pos hcond]
  have hcontains_mp4 : containsSub dot_lang_dot ((X ++ ".mp4").data) = false := by
    rw [hdmp4]
    exact containsSub_lang_mp4_false X.data hX2
  have h_org1 : organized_name base (X ++ ".mp4") = base ++ ".mp4" := by
    simp only [organized_name, hcontains_mp4, hstem_mp4, Bool.false_eq_true, if_false]
    apply string_eq_of_data
    rw [str_data_append]
  have h_ext1 : extract_id (X ++ ".mp4") = X := by
    simp only [extract_id, hstem_mp4]
    rw [show splitDots X.data = [X.data] from splitOnChar_no_sep '.' X.data hX2]
    exact mk_data_eq X
  have hdvtt : (X ++ ".lang." ++ lang ++ ".vtt").data =
      ((X.data ++ dot_lang_dot) ++ lang.data) ++ ('.' :: 'v' :: 't' :: 't' :: []) := by
    simp only [str_data_append]
    rfl
  have hsplit_vtt : splitExtAux ('.' :: 'v' :: 't' :: 't' :: []) =
      some ([], '.' :: 'v' :: 't' :: 't' :: []) := by decide
  have hsplit_side : splitExtAux (((X.data ++ dot_lang_dot) ++ lang.data) ++
      ('.' :: 'v' :: 't' :: 't' :: [])) =
      some ((X.data ++ dot_lang_dot) ++ lang.data, '.' :: 'v' :: 't' :: 't' :: []) := by
    have h2 := splitExtAux_append ((X.data ++ dot_lang_dot) ++ lang.data) _ _ _ hsplit_vtt
    simpa using h2
  have hstem_side : py_stem_suffix ((X ++ ".lang." ++ lang ++ ".vtt").data) =
      ((X.data ++ dot_lang_dot) ++ lang.data, '.' :: 'v' :: 't' :: 't' :: []) := by
    rw [hdvtt]
    simp only [py_stem_suffix, hsplit_side]
    have hcond : (X.data ++ dot_lang_dot) ++ lang.data ≠ [] ∧
        2 ≤ ('.' :: 'v' :: 't' :: 't' :: ([] : List Char)).length := by
      refine ⟨?_, by decide⟩
      simp [List.append_eq_nil, hX1]
    rw [if_pos hcond]
  have hcontains_side :
      containsSub dot_lang_dot ((X ++ ".lang." ++ lang ++ ".vtt").data) = true := by
    rw [hdvtt]
    have heq : ((X.data ++ dot_lang_dot) ++ lang.data) ++ ('.' :: 'v' :: 't' :: 't' :: []) =
        X.data ++ dot_lang_dot ++ (lang.data ++ ('.' :: 'v' :: 't' :: 't' :: [])) := by
      simp [List.append_assoc]
    rw [heq]
    exact containsSub_of_append dot_lang_dot (lang.data ++ ('.' :: 'v' :: 't' :: 't' :: [])) X.data
  have hsplit_stem : splitDots ((X.data ++ dot_lang_dot) ++ lang.data) =
      [X.data, 'l' :: 'a' :: 'n' :: 'g' :: [], lang.data] := by
    have heq : (X.data ++ dot_lang_dot) ++ lang.data =
        X.data ++ '.' :: (('l' :: 'a' :: 'n' :: 'g' :: []) ++ '.' :: lang.data) := by
      simp [dot_lang_dot, List.append_assoc]
    rw [splitDots, heq]
    rw [splitOnChar_sep_append '.' X.data _ hX2]
    rw [splitOnChar_sep_append '.' ('l' :: 'a' :: 'n' :: 'g' :: []) _ (by decide)]
    rw [splitOnChar_no_sep '.' lang.data hl2]
  have h_org2 : organized_name base (X ++ ".lang." ++ lang ++ ".vtt") =
      base ++ "." ++ lang ++ ".vtt" := by
    simp only [organized_name, hcontains_side, if_true, hstem_side, hsplit_stem]
    apply string_eq_of_data
    simp only [str_data_append]
    simp [List.getLastD_cons, List.append_assoc]
  have h_ext2 : extract_id (X ++ ".lang." ++ lang ++ ".vtt") = X := by
    simp only [extract_id, hstem_side, hsplit_stem]
    exact mk_data_eq X
  exact ⟨h_org1, h_org2, h_ext1, h_ext2⟩

/-- Claim C8 witness: the concrete pair `vid1.mp4` / `vid1.lang.en.vtt`
against the base filename "Ep Title - Chan (S1)". -/
theorem c8_sidecar_witness :
    organized_name "Ep Title - Chan (S1)" ("vid1" ++ ".mp4") =
      "Ep Title - Chan (S1)" ++ ".mp4" ∧
    organized_name "Ep Title - Chan (S1)" ("vid1" ++ ".lang." ++ "en" ++ ".vtt") =
      "Ep Title - Chan (S1)" ++ "." ++ "en" ++ ".vtt" ∧
    extract_id ("vid1" ++ ".mp4") = "vid1" ∧
    extract_id ("vid1" ++ ".lang." ++ "en" ++ ".vtt") = "vid1" :=
  c8_sidecar_shares_base_filename "vid1" "en" "Ep Title - Chan (S1)"
    (by decide) (by decide) (by decide) (by decide)

/-- `record_add` puts the value under the key. -/
theorem mem_rec_get_record_add_self (recs : List (String × List String))
    (k v : String) : v ∈ rec_get (record_add recs k v) k := by
  induction recs with
  | nil => simp [record_add, rec_get, alist_lookup]
  | cons p rest ih =>
    obtain ⟨k0, vs⟩ := p
    by_cases h : k0 = k
    · subst h
      simp [record_add, rec_get, alist_lookup]
    · simp only [record_add, if_neg h]
      simpa [rec_get, alist_lookup, h] using ih

/-- `record_add` never removes a recorded value. -/
theorem mem_rec_get_record_add_mono (recs : List (String × List String))
    (k v k1 v1 : String) (h : v ∈ rec_get recs k) :
    v ∈ rec_get (record_add recs k1 v1) k := by
  induction recs with
  | nil => simp [rec_get, alist_lookup] at h
  | cons p rest ih =>
    obtain ⟨k0, vs⟩ := p
    by_cases h0 : k0 = k1
    · subst h0
      by_cases h2 : k0 = k
      · subst h2
        have hv : v ∈ vs := by simpa [rec_get, alist_lookup] using h
        simp [record_add, rec_get, alist_lookup, List.mem_append, hv]
      · simp only [rec_get, alist_lookup, if_neg h2, record_add, if_pos rfl] at h ⊢
        exact h
    · simp only [record_add, if_neg h0]
      by_cases h2 : k0 = k
      · subst h2
        simp only [rec_get, alist_lookup, if_pos rfl, Option.getD_some] at h ⊢
        exact h
      · simp only [rec_get, alist_lookup, if_neg h2] at h ⊢
        exact ih h

/-- Once recorded, a value survives the rest of the deletion fold. -/
theorem mem_rec_get_fold_mono (fs : List FileEntry) :
    ∀ (recs : List (String × List String)) (k v : String), v ∈ rec_get recs k →
      v ∈ rec_get (fs.foldl (fun r g => record_add r g.parent g.stem) recs) k := by
  induction fs with
  | nil => intro recs k v h; exact h
  | cons g rest ih =>
    intro recs k v h
    exact ih _ k v (mem_rec_get_record_add_mono recs k v g.parent g.stem h)

/-- Every file of the deletion fold ends up recorded under its parent
directory name. -/
theorem mem_rec_get_fold (fs : List FileEntry) :
    ∀ (recs : List (String × List String)) (f : FileEntry), f ∈ fs →
      f.stem ∈ rec_get (fs.foldl (fun r g => record_add r g.parent g.stem) recs) f.parent := by
  induction fs with
  | nil => intro recs f h; cases h
  | cons g rest ih =>
    intro recs f h
    rcases List.mem_cons.mp h with h1 | h1
    · subst h1
      exact mem_rec_get_fold_mono rest _ f.parent f.stem
        (mem_rec_get_record_add_self recs f.parent f.stem)
    · exact ih _ f h1

/-- Claim C9 counterexample: the spec's per-destination policy (modelled
by `spec_should_delete`, here: destination "Chan" configured with a
7-day window, no global default) mandates deleting a 10-day-old file in
`Chan/`; the code reads only the single global key `DELETE_AFTER`
(lines 244-247) — a configuration carrying only a destination-specific
setting leads it to delete nothing and record nothing. -/
theorem c9_counterexample :
    spec_should_delete (fun d => if d = "Chan" then some 7 else none) none
      (10 * 86400) ⟨"Chan", "old", 0⟩ = true ∧
    cleanup_old_files [("DELETE_AFTER_Chan", "7")] (10 * 86400)
      [⟨"Chan", "old", 0⟩] = ([], []) := by
  exact ⟨by decide, by decide⟩

/-- Claim C9 amended: retention uses one global window. When the single
configuration key `DELETE_AFTER` is present and parses as an integer
number of days, exactly the files whose modification time is strictly
below `now − days·86400` are deleted, and each deleted file's base name
is recorded under its parent directory name; when the key is absent (or
unparsable) deletion is disabled for every destination — there are no
per-destination windows. -/
theorem c9_single_global_window (config : List (String × String)) (now : Int)
    (files : List FileEntry) (s : String) (days : Int)
    (h1 : alist_lookup config "DELETE_AFTER" = some s)
    (h2 : str_to_int s = some days) :
    ((∀ f : FileEntry, f ∈ (cleanup_old_files config now files).1 ↔
        f ∈ files ∧ f.mtime < now - days * 86400) ∧
      ∀ f ∈ (cleanup_old_files config now files).1,
        f.stem ∈ rec_get (cleanup_old_files config now files).2 f.parent) ∧
    ∀ (config' : List (String × String)) (now' : Int) (files' : List FileEntry),
      alist_lookup config' "DELETE_AFTER" = none →
      cleanup_old_files config' now' files' = ([], []) := by
  refine ⟨⟨?_, ?_⟩, ?_⟩
  · intro f
    simp only [cleanup_old_files, h1, h2]
    simp [List.mem_filter]
  · intro f hf
    simp only [cleanup_old_files, h1, h2] at hf ⊢
    exact mem_rec_get_fold _ [] f hf
  · intro config' now' files' h
    simp only [cleanup_old_files, h]

/-- Claim C9 witness: window of 7 days over files aged 3, 8 and 10 days —
the two old files are deleted and recorded under their destination. -/
theorem c9_single_global_window_witness :
    ((⟨"Chan", "a8", 2 * 86400⟩ : FileEntry) ∈
      (cleanup_old_files [("DELETE_AFTER", "7")] (10 * 86400)
        [⟨"Chan", "a3", 7 * 86400⟩, ⟨"Chan", "a8", 2 * 86400⟩, ⟨"Chan", "a10", 0⟩]).1) ∧
    ¬ ((⟨"Chan", "a3", 7 * 86400⟩ : FileEntry) ∈
      (cleanup_old_files [("DELETE_AFTER", "7")] (10 * 86400)
        [⟨"Chan", "a3", 7 * 86400⟩, ⟨"Chan", "a8", 2 * 86400⟩, ⟨"Chan", "a10", 0⟩]).1) ∧
    "a8" ∈ rec_get (cleanup_old_files [("DELETE_AFTER", "7")] (10 * 86400)
        [⟨"Chan", "a3", 7 * 86400⟩, ⟨"Chan", "a8", 2 * 86400⟩, ⟨"Chan", "a10", 0⟩]).2 "Chan" := by
  have h := c9_single_global_window [("DELETE_AFTER", "7")] (10 * 86400)
    [⟨"Chan", "a3", 7 * 86400⟩, ⟨"Chan", "a8", 2 * 86400⟩, ⟨"Chan", "a10", 0⟩]
    "7" 7 (by decide) (by decide)
  have hmem : (⟨"Chan", "a8", 2 * 86400⟩ : FileEntry) ∈
      (cleanup_old_files [("DELETE_AFTER", "7")] (10 * 86400)
        [⟨"Chan", "a3", 7 * 86400⟩, ⟨"Chan", "a8", 2 * 86400⟩, ⟨"Chan", "a10", 0⟩]).1 :=
    (h.1.1 _).mpr ⟨by decide, by decide⟩
  refine ⟨hmem, ?_, h.1.2 _ hmem⟩
  intro hbad
  exact absurd ((h.1.1 _).mp hbad).2 (by decide)
